import Mathlib

/-!
# CandleSage — verification of the pattern-encoding and persistence pipeline

Shallow embedding of the repository's core code:

* `src/Backup/temp.py` — `CandlePatternRecognizer` (candlestick catalog and
  bitmask encoder), `StockDatabaseManager` (table creation, single-row and
  bulk idempotent upserts), `StockDataDownloader` (per-day pipeline and date
  range driver).
* `src/stock_api/pattern_engine.py` — `PatternEngine` (the normalized-schema
  pattern catalog, including the close-vs-open discriminated Marubozu pair).

TA-Lib candlestick detectors are an external library; they are modelled as an
opaque environment assigning an integer output to each raw detector at each
row (the code only ever tests these outputs against zero).  Pandas/SQL
machinery is modelled by explicit lists and state passing; the Postgres
`ON CONFLICT (symbol, date) DO NOTHING` semantics of both write paths is
modelled by a key-conditional append, and per-call effects (existence checks,
CREATE TABLE, issued INSERTs, log lines, HTTP fetches) are recorded in an
event trace so that frame/effect claims can be stated.
-/

namespace CandleSage

/-! ## Raw TA-Lib detectors (external, opaque outputs)

`CandlePatternRecognizer.patterns` (temp.py lines 37-50) maps the 12 catalog
names to 11 distinct `talib.CDL*` functions; `CDLSPINNINGTOP` is used for both
`BullishSpinningTop` and `BearishSpinningTop`. -/

inductive RawPattern where
  | CDLHAMMER
  | CDLINVERTEDHAMMER
  | CDLDRAGONFLYDOJI
  | CDLPIERCING
  | CDLMARUBOZU
  | CDLSPINNINGTOP
  | CDLHANGINGMAN
  | CDLSHOOTINGSTAR
  | CDLGRAVESTONEDOJI
  | CDLDOJI
  | CDLLONGLEGGEDDOJI
deriving DecidableEq, Repr

/-- The fixed ordered catalog of `CandlePatternRecognizer`
(`pattern_names` / `patterns`, temp.py lines 32-50): first entry is the
most-significant bit of the encoding. -/
def catalog : List (String × RawPattern) :=
  [("Hammer", .CDLHAMMER),
   ("InvertedHammer", .CDLINVERTEDHAMMER),
   ("DragonflyDoji", .CDLDRAGONFLYDOJI),
   ("PiercingLine", .CDLPIERCING),
   ("BullishMarubozu", .CDLMARUBOZU),
   ("BullishSpinningTop", .CDLSPINNINGTOP),
   ("HangingMan", .CDLHANGINGMAN),
   ("ShootingStar", .CDLSHOOTINGSTAR),
   ("GravestoneDoji", .CDLGRAVESTONEDOJI),
   ("BearishSpinningTop", .CDLSPINNINGTOP),
   ("Doji", .CDLDOJI),
   ("LongLeggedDoji", .CDLLONGLEGGEDDOJI)]

/-- One row's indicator column for one catalog entry
(`(func(...) != 0).astype(int)`, temp.py line 55): `1` iff the raw detector
output at that row is non-zero.  `detOut` is the row's opaque TA-Lib output
assignment. -/
def patternBit (detOut : RawPattern → Int) (p : RawPattern) : Nat :=
  if detOut p ≠ 0 then 1 else 0

/-- `int(x, 2)` of a big-endian digit string: the value of the concatenated
0/1 indicator columns (temp.py line 56). -/
def binVal (l : List Nat) : Nat := l.foldl (fun a b => 2 * a + b) 0

/-- The row's 12 indicator digits in catalog order (temp.py lines 54-55). -/
def rowFlags (detOut : RawPattern → Int) : List Nat :=
  catalog.map (fun e => patternBit detOut e.2)

/-- `pattern_value` of one row (temp.py line 56). -/
def pattern_value (detOut : RawPattern → Int) : Nat := binVal (rowFlags detOut)

/-- `matched_patterns` of one row (temp.py lines 57-59): the catalog names
whose indicator is 1, in catalog order. -/
def matched_patterns (detOut : RawPattern → Int) : List String :=
  (catalog.filter (fun e => detOut e.2 != 0)).map (fun e => e.1)

/-! ## PatternEngine (src/stock_api/pattern_engine.py lines 10-19)

The normalized-schema catalog.  Entries 6 and 7 wrap `talib.CDLMARUBOZU` in a
lambda that numpy-bitwise-ANDs its output with the boolean array `c > o`
(resp. `c < o`), the booleans being cast to the integers 0/1. -/

structure PriceRow where
  Open : Int
  High : Int
  Low : Int
  Close : Int
deriving DecidableEq, Repr

inductive EDetector where
  | raw (p : RawPattern)
  | rawAndCloseGt (p : RawPattern)
  | rawAndCloseLt (p : RawPattern)
deriving DecidableEq, Repr

/-- Evaluate one `PatternEngine` detector at a row, `rawOut` giving the
opaque TA-Lib outputs at that row.  `x & b` on a numpy int array and bool
array is bitwise AND with the bool cast to 0/1. -/
def evalEDetector (rawOut : RawPattern → Int) (r : PriceRow) : EDetector → Int
  | .raw p => rawOut p
  | .rawAndCloseGt p => Int.land (rawOut p) (if r.Close > r.Open then 1 else 0)
  | .rawAndCloseLt p => Int.land (rawOut p) (if r.Close < r.Open then 1 else 0)

/-- `PatternEngine.__init__`'s pattern dict (pattern_engine.py lines 11-19). -/
def enginePatterns : List (Nat × String × EDetector) :=
  [(1, "Hammer", .raw .CDLHAMMER),
   (2, "Inverted Hammer", .raw .CDLINVERTEDHAMMER),
   (3, "Hanging Man", .raw .CDLHANGINGMAN),
   (4, "Shooting Star", .raw .CDLSHOOTINGSTAR),
   (5, "Doji", .raw .CDLDOJI),
   (6, "Bullish Marubozu", .rawAndCloseGt .CDLMARUBOZU),
   (7, "Bearish Marubozu", .rawAndCloseLt .CDLMARUBOZU)]

/-- Whether the `CandlePatternRecognizer` detector registered under `name`
fires at a row whose TA-Lib outputs are given by `tal` applied to that row
(`self.patterns[name](...) != 0`, temp.py line 55). -/
def tempFires (tal : RawPattern → PriceRow → Int) (r : PriceRow) (name : String) : Bool :=
  match catalog.find? (fun e => e.1 == name) with
  | some e => tal e.2 r != 0
  | none => false

/-! ## Calendar dates

`datetime.strptime(...).weekday()` (temp.py line 200) and the day-by-day
iteration of `process_date_range` (lines 246-253).  A date string is modelled
by its parsed `(year, month, day)` triple.  Day numbers are counted from
1970-01-01 (a Thursday, Python weekday 3) by the standard civil-from-days
conversion; Lean's `Int` division is Euclidean, i.e. floor division for the
positive divisors used here, which is what the algorithm requires. -/

structure CalDate where
  year : Int
  month : Int
  day : Int
deriving DecidableEq, Repr

def daysFromCivil (dt : CalDate) : Int :=
  let y := dt.year - (if dt.month ≤ 2 then 1 else 0)
  let era := y / 400
  let yoe := y - era * 400
  let doy := (153 * (dt.month + (if dt.month > 2 then -3 else 9)) + 2) / 5 + dt.day - 1
  let doe := yoe * 365 + yoe / 4 - yoe / 100 + doy
  era * 146097 + doe - 719468

def civilFromDays (z0 : Int) : CalDate :=
  let z := z0 + 719468
  let era := z / 146097
  let doe := z - era * 146097
  let yoe := (doe - doe / 1460 + doe / 36524 - doe / 146096) / 365
  let y := yoe + era * 400
  let doy := doe - (365 * yoe + yoe / 4 - yoe / 100)
  let mp := (5 * doy + 2) / 153
  let d := doy - (153 * mp + 2) / 5 + 1
  let m := mp + (if mp < 10 then 3 else -9)
  ⟨y + (if m ≤ 2 then 1 else 0), m, d⟩

/-- Python's `date.weekday()`: Monday = 0 … Sunday = 6. -/
def pyWeekday (dt : CalDate) : Int := (daysFromCivil dt + 3) % 7

/-- `StockDataDownloader.is_weekend` (temp.py lines 199-200). -/
def is_weekend (dt : CalDate) : Bool := decide (pyWeekday dt ≥ 5)

/-! ## Rows

`RawBar` is a row of the cleaned daily bhavcopy (the output of the external
`clean_bhavcopy` collaborator); `EncRow` is the same row after
`apply_and_encode_patterns` added the 12 indicator columns, `pattern_value`
and `matched_patterns`; `DBRow` is the record shape built by the two insert
paths (temp.py lines 132-144 and 170-182).  Price fields are opaque to the
persistence layer (no arithmetic is performed on them), so they are carried
as integers; the `str(...)` serialization of `matched_patterns` is modelled
by the list itself. -/

structure RawBar where
  Symbol : String
  Date : CalDate
  Open : Int
  High : Int
  Low : Int
  Close : Int
  Volume : Int
  prev_close : Int
  avg_price : Int
deriving DecidableEq, Repr

structure EncRow where
  bar : RawBar
  patternFlags : List Nat
  pattern_value : Nat
  matched_patterns : List String
deriving DecidableEq, Repr

structure DBRow where
  symbol : String
  date : CalDate
  openPrice : Int
  high : Int
  low : Int
  close : Int
  volume : Int
  prev_close : Int
  avg_price : Int
  pattern_value : Nat
  matched_patterns : List String
deriving DecidableEq, Repr

/-- The insert record built from one encoded row (temp.py lines 132-144 /
170-182); `symbol` is the groupby key for the per-symbol path and the row's
own `Symbol` column for the bulk path. -/
def mkRecord (symbol : String) (r : EncRow) : DBRow :=
  { symbol := symbol
    date := r.bar.Date
    openPrice := r.bar.Open
    high := r.bar.High
    low := r.bar.Low
    close := r.bar.Close
    volume := r.bar.Volume
    prev_close := r.bar.prev_close
    avg_price := r.bar.avg_price
    pattern_value := r.pattern_value
    matched_patterns := r.matched_patterns }

/-! ## Store, manager state and the effect trace -/

/-- Destination tables by name.  `createFails` is the environment's verdict on
whether `CREATE TABLE` raises for a given name (e.g. a conflicting schema),
the failure mode of temp.py lines 123-125. -/
abbrev Tables := List (String × List DBRow)

structure Store where
  tables : Tables
  createFails : String → Bool

/-- `StockDatabaseManager` state: the store, `existing_tables_cache`, and the
set of table names registered in the manager's shared SQLAlchemy `MetaData`
object (`self.metadata`).  `Table(name, self.metadata, *columns)` registers
its name there *before* `create_all` can raise, so a failed creation still
leaves the name registered. -/
structure MState where
  store : Store
  cache : List String
  metadata : List String

inductive LogCtx where
  | createTable (t : String)
  | insertFail (symbol : String)
  | bulkFail
  | processDate (d : CalDate)
deriving DecidableEq, Repr

/-- Observable per-call effects: table-existence round trips, DDL, issued
INSERT statements, HTTP fetches and log lines. -/
inductive Event where
  | existenceChecked (t : String)
  | tableCreated (t : String)
  | indexesCreated (t : String)
  | insertIssued (t : String) (n : Nat)
  | fetchIssued (d : CalDate)
  | logError (c : LogCtx)
  | logInfo (t : String)
deriving DecidableEq, Repr

def lookupTable (ts : Tables) (t : String) : Option (List DBRow) :=
  (ts.find? (fun p => p.1 == t)).map (fun p => p.2)

def hasTable (ts : Tables) (t : String) : Bool := (lookupTable ts t).isSome

/-- Register a name in the shared `MetaData` collection; a no-op when the
name is already present (as when `Table(..., autoload_with=...)` returns an
already-registered table instead of reflecting). -/
def registerTable (m : List String) (t : String) : List String :=
  if t ∈ m then m else t :: m

/-- Does `tbl` already hold a row with natural key `(s, dt)`? -/
def containsKey (tbl : List DBRow) (s : String) (dt : CalDate) : Bool :=
  tbl.any (fun q => q.symbol == s && q.date == dt)

def containsKeyTs (ts : Tables) (t : String) (s : String) (dt : CalDate) : Bool :=
  match lookupTable ts t with
  | some tbl => containsKey tbl s dt
  | none => false

/-- First row stored under natural key `(s, dt)`. -/
def getRow (tbl : List DBRow) (s : String) (dt : CalDate) : Option DBRow :=
  tbl.find? (fun q => q.symbol == s && q.date == dt)

/-- `INSERT … ON CONFLICT (symbol, date) DO NOTHING` against one table:
append the record unless its key is already present. -/
def upsertRow (tbl : List DBRow) (r : DBRow) : List DBRow :=
  if containsKey tbl r.symbol r.date then tbl else tbl ++ [r]

/-- Apply `upsertRow` to the (first) table named `t`. -/
def applyUpsert (ts : Tables) (t : String) (r : DBRow) : Tables :=
  match ts with
  | [] => []
  | p :: rest => if p.1 == t then (p.1, upsertRow p.2 r) :: rest else p :: applyUpsert rest t r

/-- A multi-VALUES `ON CONFLICT DO NOTHING` insert: rows applied in order,
each skipped if its key is present (including keys added earlier in the same
batch, which is Postgres's behaviour for `DO NOTHING`). -/
def bulkUpsert (ts : Tables) (t : String) (rs : List DBRow) : Tables :=
  rs.foldl (fun acc r => applyUpsert acc t r) ts

/-- `StockDatabaseManager.check_table_exists` (temp.py lines 74-80): consult
the cache, otherwise ask the inspector and cache a positive answer. -/
def check_table_exists (st : MState) (t : String) : Bool × MState × List Event :=
  if t ∈ st.cache then (true, st, [])
  else if hasTable st.store.tables t then
    (true, { st with cache := t :: st.cache }, [.existenceChecked t])
  else (false, st, [.existenceChecked t])

/-- `StockDatabaseManager.create_table` (temp.py lines 99-125): return `true`
if the table exists or was created (also creating indexes and caching the
name), `false` — after logging — if creation raised.  The try-block first
constructs `Table(table_name, self.metadata, *columns)`: if the name is
already registered in the shared metadata (a previous failed attempt) that
constructor itself raises, and otherwise it registers the name *before*
`metadata.create_all` runs — so even when `create_all` raises the name stays
registered.  Index-creation failures are caught and logged inside
`create_indexes` and are non-fatal; they are not modelled as a separate
failure mode. -/
def create_table (st : MState) (t : String) : Bool × MState × List Event :=
  let c := check_table_exists st t
  if c.1 then (true, c.2.1, c.2.2)
  else if t ∈ st.metadata then
    (false, c.2.1, c.2.2 ++ [.logError (.createTable t)])
  else if st.store.createFails t then
    (false, { c.2.1 with metadata := t :: c.2.1.metadata },
     c.2.2 ++ [.logError (.createTable t)])
  else
    (true,
     { c.2.1 with
        store := { c.2.1.store with tables := c.2.1.store.tables ++ [(t, [])] }
        cache := t :: c.2.1.cache
        metadata := t :: c.2.1.metadata },
     c.2.2 ++ [.tableCreated t, .indexesCreated t])

/-- `symbol.lower()`: character-wise lowercasing (exchange tickers are
ASCII). -/
def lowerStr (s : String) : String := String.mk (s.data.map Char.toLower)

/-- `StockDatabaseManager.insert_data` (temp.py lines 127-156): derive the
per-symbol table name, call `create_table` (result ignored), then inside a
try/except take `iloc[0]` of the group (an empty group raises, which is
caught and logged) and issue a single-row `ON CONFLICT DO NOTHING` insert;
if the statement fails (e.g. the table is missing because creation failed)
the exception is caught and logged and `False` is returned. -/
def insert_data (st : MState) (symbol : String) (data : List EncRow) :
    Bool × MState × List Event :=
  let tname := "stock_" ++ lowerStr symbol
  let c := create_table st tname
  match data.head? with
  | none => (false, c.2.1, c.2.2 ++ [.logError (.insertFail symbol)])
  | some row =>
    if hasTable c.2.1.store.tables tname then
      (true,
       { c.2.1 with
          store := { c.2.1.store with
                      tables := applyUpsert c.2.1.store.tables tname (mkRecord symbol row) } },
       c.2.2 ++ [.insertIssued tname 1])
    else
      (false, c.2.1, c.2.2 ++ [.insertIssued tname 1, .logError (.insertFail symbol)])

/-- `df[pattern_cols].any(axis=1)`: the row has at least one pattern. -/
def hasAnyPattern (r : EncRow) : Bool := r.patternFlags.any (fun b => b != 0)

/-- `StockDatabaseManager.bulk_insert_common` (temp.py lines 158-192): call
`create_table` (result ignored), filter the batch to rows with at least one
detected pattern, return silently if none remain, otherwise prepare the
statement via `Table(table_name, self.metadata, autoload_with=self.engine)`
and issue one bulk `ON CONFLICT DO NOTHING` insert followed by an info log
line.  Statement preparation returns the already-registered `Table` object
without reflecting when the name is in the shared metadata — which is always
the case right after a failed creation in the same call — so the INSERT is
still issued and then fails at the database; only when the name is
unregistered *and* the table is missing does reflection raise before any
INSERT is issued.  Either failure is caught and logged. -/
def bulk_insert_common (st : MState) (df : List EncRow) : MState × List Event :=
  let tname := "common_stock_data"
  let c := create_table st tname
  let dfp := df.filter hasAnyPattern
  if dfp.isEmpty then (c.2.1, c.2.2)
  else
    let records := dfp.map (fun r => mkRecord r.bar.Symbol r)
    if hasTable c.2.1.store.tables tname then
      ({ c.2.1 with
          store := { c.2.1.store with
                      tables := bulkUpsert c.2.1.store.tables tname records }
          metadata := registerTable c.2.1.metadata tname },
       c.2.2 ++ [.insertIssued tname records.length, .logInfo tname])
    else if tname ∈ c.2.1.metadata then
      (c.2.1, c.2.2 ++ [.insertIssued tname records.length, .logError .bulkFail])
    else (c.2.1, c.2.2 ++ [.logError .bulkFail])

/-- Row uniqueness of one table: no two rows share a `(symbol, date)` key. -/
def uniqueKeysB : List DBRow → Bool
  | [] => true
  | r :: rest => !containsKey rest r.symbol r.date && uniqueKeysB rest

/-- The central invariant: every destination table holds at most one row per
`(symbol, date)`. -/
def TablesOKB (ts : Tables) : Bool := ts.all (fun p => uniqueKeysB p.2)

/-- A write operation of the storage layer, for reachability statements. -/
inductive Op where
  | ins (symbol : String) (data : List EncRow)
  | bulk (df : List EncRow)

def applyOp (st : MState) : Op → MState
  | .ins s d => (insert_data st s d).2.1
  | .bulk df => (bulk_insert_common st df).1

def applyOps (st : MState) (ops : List Op) : MState := ops.foldl applyOp st

/-! ## The per-day pipeline and the date-range driver -/

/-- Outcome of the HTTP fetch of one day's bhavcopy (`download_csv`,
temp.py lines 202-211): a 200 response with the (externally cleaned) rows, a
non-200 status, or an exception inside `requests.get` — the latter two both
make `download_csv` return `None`, the exception via its own bare
`except: return None`. -/
inductive FetchOutcome where
  | ok (df : List RawBar)
  | httpFail
  | exn

/-- The external world: per-day fetch outcomes, per-day TA-Lib outputs
(indexed by detector and row position), and whether the pandas stages
(`pd.read_csv`, `clean_bhavcopy`, `apply_and_encode_patterns`) raise for a
given day's data. -/
structure WorldEnv where
  fetch : CalDate → FetchOutcome
  talib : CalDate → RawPattern → Nat → Int
  parseFails : CalDate → Bool
  cleanFails : CalDate → Bool
  encodeFails : CalDate → Bool

/-- `CandlePatternRecognizer.apply_and_encode_patterns` (temp.py lines
52-60) over a whole cleaned frame: row `i` gets the indicator columns,
`pattern_value` and `matched_patterns` computed from the TA-Lib outputs at
position `i`. -/
def apply_and_encode_patterns (tal : RawPattern → Nat → Int) (df : List RawBar) :
    List EncRow :=
  df.mapIdx (fun i r =>
    { bar := r
      patternFlags := rowFlags (fun p => tal p i)
      pattern_value := pattern_value (fun p => tal p i)
      matched_patterns := matched_patterns (fun p => tal p i) })

def insertSorted (s : String) : List String → List String
  | [] => [s]
  | x :: xs => if s ≤ x then s :: x :: xs else x :: insertSorted s xs

def sortStrings : List String → List String
  | [] => []
  | x :: xs => insertSorted x (sortStrings xs)

/-- The group keys of `df.groupby("Symbol")`: distinct symbols in sorted
order (pandas sorts group keys). -/
def symbolsOf (rows : List EncRow) : List String :=
  sortStrings ((rows.map (fun r => r.bar.Symbol)).dedup)

/-- `StockDataDownloader.process_single_date` (temp.py lines 229-244):
return at once on a weekend; issue the fetch and return if it yields no
data (including a swallowed fetch exception); otherwise run the
parse → clean → encode → bulk-insert → per-symbol-insert body inside a
try/except that logs failures with the date.  Write failures are caught
inside the gateway calls and never raise here. -/
def processSingleDate (env : WorldEnv) (st : MState) (d : CalDate) :
    MState × List Event :=
  if is_weekend d then (st, [])
  else
    match env.fetch d with
    | .httpFail => (st, [.fetchIssued d])
    | .exn => (st, [.fetchIssued d])
    | .ok df =>
      if env.parseFails d || env.cleanFails d || env.encodeFails d then
        (st, [.fetchIssued d, .logError (.processDate d)])
      else
        let enc := apply_and_encode_patterns (env.talib d) df
        let b := bulk_insert_common st enc
        let f := (symbolsOf enc).foldl
          (fun acc s =>
            let r := insert_data acc.1 s (enc.filter (fun x => x.bar.Symbol == s))
            (r.2.1, acc.2 ++ r.2.2))
          (b.1, ([] : List Event))
        (f.1, .fetchIssued d :: (b.2 ++ f.2))

/-- Process a list of days in order, threading the state and concatenating
the traces. -/
def runDays (env : WorldEnv) (st : MState) : List CalDate → MState × List Event
  | [] => (st, [])
  | d :: rest =>
    let r1 := processSingleDate env st d
    let r2 := runDays env r1.1 rest
    (r2.1, r1.2 ++ r2.2)

/-- The inclusive day-by-day range of `process_date_range`
(temp.py lines 246-253). -/
def rangeDays (startD endD : CalDate) : List CalDate :=
  let s := daysFromCivil startD
  let e := daysFromCivil endD
  (List.range (e - s + 1).toNat).map (fun i => civilFromDays (s + i))

/-- `StockDataDownloader.process_date_range` (temp.py lines 246-253). -/
def processDateRange (env : WorldEnv) (st : MState) (startD endD : CalDate) :
    MState × List Event :=
  runDays env st (rangeDays startD endD)

/-! ## Concrete instances used by witnesses and counterexamples -/

/-- A TA-Lib output assignment under which exactly `CDLHAMMER` fires. -/
def envH : RawPattern → Int := fun p => if p = .CDLHAMMER then 100 else 0

/-- A TA-Lib output assignment under which exactly `CDLSPINNINGTOP` fires,
at every row. -/
def envS : RawPattern → PriceRow → Int :=
  fun p _ => if p = .CDLSPINNINGTOP then 100 else 0

/-- A bullish row: close 11 above open 10. -/
def rowUp : PriceRow := ⟨10, 12, 9, 11⟩

/-- A TA-Lib output assignment with an odd `CDLMARUBOZU` output (so the
numpy bitwise AND with the 0/1 mask is non-zero). -/
def rawOdd : RawPattern → Int := fun p => if p = .CDLMARUBOZU then 101 else 0

/-- First stored row under a key, across the table registry. -/
def getRowTs (ts : Tables) (t : String) (s : String) (dt : CalDate) : Option DBRow :=
  match lookupTable ts t with
  | some tbl => getRow tbl s dt
  | none => none

/-- An encoded Hammer-only bar for symbol ABC on Monday 2025-01-06. -/
def rowA : EncRow :=
  { bar := { Symbol := "ABC", Date := ⟨2025, 1, 6⟩, Open := 10, High := 12, Low := 9,
             Close := 11, Volume := 1000, prev_close := 10, avg_price := 10 }
    patternFlags := [1, 0, 0, 0, 0, 0, 0, 0, 0, 0, 0, 0]
    pattern_value := 2048
    matched_patterns := ["Hammer"] }

def dbRowA : DBRow := mkRecord "ABC" rowA

/-- A store already holding `rowA` in both destinations, creation reliable. -/
def stA : MState :=
  ⟨⟨[("stock_abc", [dbRowA]), ("common_stock_data", [dbRowA])], fun _ => false⟩, [], []⟩

/-- An empty store in which creating ABC's per-symbol table fails. -/
def stC : MState := ⟨⟨[], fun t => t == "stock_abc"⟩, [], []⟩

/-- `rowA` with every pattern flag clear. -/
def rowZ : EncRow :=
  { rowA with patternFlags := [0, 0, 0, 0, 0, 0, 0, 0, 0, 0, 0, 0],
              pattern_value := 0, matched_patterns := [] }

/-- An empty, reliable store with an empty cache. -/
def stZ : MState := ⟨⟨[], fun _ => false⟩, [], []⟩

/-- An empty store in which creating the shared table fails. -/
def stCF : MState := ⟨⟨[], fun t => t == "common_stock_data"⟩, [], []⟩

/-- Operation list for the reachability witness. -/
def opsW : List Op := [.ins "ABC" [rowA], .bulk [rowA]]

/-- A world in which every fetch raises inside `requests.get`. -/
def envX : WorldEnv :=
  ⟨fun _ => .exn, fun _ _ _ => 0, fun _ => false, fun _ => false, fun _ => false⟩

/-- A world in which every fetch succeeds with an empty frame but the pandas
parse stage raises. -/
def envP : WorldEnv :=
  ⟨fun _ => .ok [], fun _ _ _ => 0, fun _ => true, fun _ => false, fun _ => false⟩

/-- Monday 2025-01-06. -/
def dMon : CalDate := ⟨2025, 1, 6⟩

/-- Saturday 2025-01-04. -/
def dSat : CalDate := ⟨2025, 1, 4⟩

/-! ## Generic facts about the big-endian binary value of a digit list -/

theorem foldl_binStep (l : List Nat) (acc : Nat) :
    l.foldl (fun a b => 2 * a + b) acc = acc * 2 ^ l.length + binVal l := by
  induction l generalizing acc with
  | nil => simp [binVal]
  | cons b t ih =>
    have hb : binVal (b :: t) = t.foldl (fun a b => 2 * a + b) (2 * 0 + b) := rfl
    simp only [List.foldl_cons, List.length_cons, hb]
    rw [ih (2 * acc + b), ih (2 * 0 + b)]
    ring

theorem binVal_cons (b : Nat) (t : List Nat) :
    binVal (b :: t) = b * 2 ^ t.length + binVal t := by
  have h : binVal (b :: t) = t.foldl (fun a b => 2 * a + b) (2 * 0 + b) := rfl
  rw [h, foldl_binStep]
  ring_nf

theorem binVal_lt (l : List Nat) (h : ∀ b ∈ l, b ≤ 1) : binVal l < 2 ^ l.length := by
  induction l with
  | nil => simp [binVal]
  | cons b t ih =>
    rw [binVal_cons]
    have hb : b ≤ 1 := h b (by simp)
    have ht := ih (fun x hx => h x (by simp [hx]))
    have h2 : (2 : Nat) ^ (b :: t).length = 2 * 2 ^ t.length := by
      rw [List.length_cons, pow_succ]; ring
    rw [h2]
    rcases Nat.le_one_iff_eq_zero_or_eq_one.mp hb with rfl | rfl <;> omega

theorem testBit_of_add_high (b w v : Nat) (hv : v < 2 ^ w) (hb : b ≤ 1) :
    (b * 2 ^ w + v).testBit w = decide (b = 1) := by
  rw [Nat.testBit_to_div_mod]
  have hpos : 0 < 2 ^ w := Nat.two_pow_pos w
  have hdiv : (b * 2 ^ w + v) / 2 ^ w = b := by
    rw [Nat.mul_comm b, Nat.mul_add_div hpos, Nat.div_eq_of_lt hv]
    omega
  rw [hdiv]
  rcases Nat.le_one_iff_eq_zero_or_eq_one.mp hb with rfl | rfl <;> norm_num

theorem testBit_of_add_low (b w v k : Nat) (hk : k < w) :
    (b * 2 ^ w + v).testBit k = v.testBit k := by
  rw [Nat.testBit_to_div_mod, Nat.testBit_to_div_mod]
  have hpos : 0 < 2 ^ k := Nat.two_pow_pos k
  have hw : (2 : Nat) ^ w = 2 ^ k * 2 ^ (w - k) := by
    rw [← pow_add]; congr 1; omega
  have h1 : b * 2 ^ w = 2 ^ k * (b * 2 ^ (w - k)) := by rw [hw]; ring
  have hdiv : (b * 2 ^ w + v) / 2 ^ k = b * 2 ^ (w - k) + v / 2 ^ k := by
    rw [h1, Nat.mul_add_div hpos]
  rw [hdiv, decide_eq_decide]
  have h2 : b * 2 ^ (w - k) = b * 2 ^ (w - k - 1) * 2 := by
    rw [Nat.mul_assoc, ← pow_succ]
    congr 2
    omega
  rw [h2]
  omega

/-- The bit of `binVal l` at big-endian position `i` (most-significant digit
first) is the `i`-th digit, provided all digits are 0/1. -/
theorem binVal_testBit (l : List Nat) (h : ∀ b ∈ l, b ≤ 1) (i : Nat) (hi : i < l.length) :
    (binVal l).testBit (l.length - 1 - i) = decide (l.get ⟨i, hi⟩ = 1) := by
  induction l generalizing i with
  | nil => simp at hi
  | cons b t ih =>
    rw [binVal_cons]
    cases i with
    | zero =>
      have hlen : (b :: t).length - 1 - 0 = t.length := by simp
      rw [hlen,
        testBit_of_add_high b t.length (binVal t)
          (binVal_lt t (fun x hx => h x (List.mem_cons_of_mem _ hx)))
          (h b (List.mem_cons_self _ _))]
      rfl
    | succ j =>
      have hj : j < t.length := by simpa using hi
      have hlen : (b :: t).length - 1 - (j + 1) = t.length - 1 - j := by
        simp only [List.length_cons]; omega
      rw [hlen, testBit_of_add_low b t.length (binVal t) _ (by omega),
        ih (fun x hx => h x (List.mem_cons_of_mem _ hx)) j hj]
      rfl

/-! ## Facts about the encoder -/

theorem patternBit_le (detOut : RawPattern → Int) (p : RawPattern) :
    patternBit detOut p ≤ 1 := by
  unfold patternBit; split <;> omega

theorem rowFlags_le_one (detOut : RawPattern → Int) :
    ∀ b ∈ rowFlags detOut, b ≤ 1 := by
  intro b hb
  simp only [rowFlags, List.mem_map] at hb
  obtain ⟨e, _, rfl⟩ := hb
  exact patternBit_le detOut e.2

theorem patternBit_eq_one (detOut : RawPattern → Int) (p : RawPattern) :
    patternBit detOut p = 1 ↔ detOut p ≠ 0 := by
  unfold patternBit; split <;> rename_i h <;> simp [h]

/-- The bit of `pattern_value` at the position of catalog entry `i`
(most-significant bit = entry 0) is set iff that entry's detector output is
non-zero. -/
theorem pattern_value_testBit (detOut : RawPattern → Int) (i : Nat)
    (hi : i < catalog.length) :
    ((pattern_value detOut).testBit (11 - i) = true ↔
      detOut (catalog.get ⟨i, hi⟩).2 ≠ 0) := by
  have hlen : (rowFlags detOut).length = catalog.length := by simp [rowFlags]
  have hi' : i < (rowFlags detOut).length := by rw [hlen]; exact hi
  have hct : catalog.length = 12 := rfl
  have h11 : (11 : Nat) - i = (rowFlags detOut).length - 1 - i := by
    rw [hlen, hct]
  rw [pattern_value, h11, binVal_testBit _ (rowFlags_le_one detOut) i hi',
    decide_eq_true_eq]
  have hget : (rowFlags detOut).get ⟨i, hi'⟩ =
      patternBit detOut (catalog.get ⟨i, hi⟩).2 := by
    simp [rowFlags, List.get_map]
  rw [hget, patternBit_eq_one]

theorem spinning_mem_bull (detOut : RawPattern → Int) :
    ("BullishSpinningTop" ∈ matched_patterns detOut ↔ detOut .CDLSPINNINGTOP ≠ 0) := by
  by_cases hc : detOut RawPattern.CDLSPINNINGTOP = 0 <;>
    simp [matched_patterns, catalog, hc]

theorem spinning_mem_bear (detOut : RawPattern → Int) :
    ("BearishSpinningTop" ∈ matched_patterns detOut ↔ detOut .CDLSPINNINGTOP ≠ 0) := by
  by_cases hc : detOut RawPattern.CDLSPINNINGTOP = 0 <;>
    simp [matched_patterns, catalog, hc]

theorem land_zero_right (x : Int) : Int.land x 0 = 0 := by
  cases x with
  | ofNat n => simp [Int.land]
  | negSucc n => simp [Int.land, Nat.ldiff]

/-! ## Claims about the encoder -/

/-- C1: for every input price row (its detector outputs `detOut`), the bit of
the encoded `pattern_value` at the position of catalog entry `i`
(most-significant bit = first catalog entry, over the fixed 12-entry catalog)
is 1 iff that entry's detector returned non-zero for that row; and a row
where exactly the Hammer detector (first catalog entry) fires yields
`pattern_value = 2 ^ 11` and `matched_patterns = ["Hammer"]`. -/
theorem C1_bitmask_encoding :
    (∀ (detOut : RawPattern → Int) (i : Nat) (hi : i < catalog.length),
        ((pattern_value detOut).testBit (11 - i) = true ↔
          detOut (catalog.get ⟨i, hi⟩).2 ≠ 0))
    ∧ (∀ detOut : RawPattern → Int,
        detOut .CDLHAMMER ≠ 0 →
        (∀ p : RawPattern, p ≠ .CDLHAMMER → detOut p = 0) →
        pattern_value detOut = 2 ^ 11 ∧ matched_patterns detOut = ["Hammer"]) := by
  constructor
  · exact pattern_value_testBit
  · intro detOut h1 h2
    have hIH := h2 .CDLINVERTEDHAMMER (by decide)
    have hDD := h2 .CDLDRAGONFLYDOJI (by decide)
    have hP := h2 .CDLPIERCING (by decide)
    have hM := h2 .CDLMARUBOZU (by decide)
    have hS := h2 .CDLSPINNINGTOP (by decide)
    have hHM := h2 .CDLHANGINGMAN (by decide)
    have hSS := h2 .CDLSHOOTINGSTAR (by decide)
    have hGD := h2 .CDLGRAVESTONEDOJI (by decide)
    have hD := h2 .CDLDOJI (by decide)
    have hLD := h2 .CDLLONGLEGGEDDOJI (by decide)
    constructor
    · have hflags : rowFlags detOut = [1, 0, 0, 0, 0, 0, 0, 0, 0, 0, 0, 0] := by
        simp [rowFlags, catalog, patternBit, h1, hIH, hDD, hP, hM, hS, hHM, hSS,
          hGD, hD, hLD]
      rw [pattern_value, hflags]
      decide
    · simp [matched_patterns, catalog, h1, hIH, hDD, hP, hM, hS, hHM, hSS, hGD,
        hD, hLD]

/-- Witness for C1 at the Hammer-only detector assignment `envH`. -/
theorem C1_bitmask_encoding_witness :
    ((pattern_value envH).testBit (11 - 0) = true ↔
      envH (catalog.get ⟨0, by decide⟩).2 ≠ 0)
    ∧ (pattern_value envH = 2 ^ 11 ∧ matched_patterns envH = ["Hammer"]) :=
  ⟨C1_bitmask_encoding.1 envH 0 (by decide),
   C1_bitmask_encoding.2 envH (by decide) (by intro p hp; simp [envH, hp])⟩

/-- C10: `BullishSpinningTop` (catalog index 5, bit 6) and
`BearishSpinningTop` (catalog index 9, bit 2) are both `talib.CDLSPINNINGTOP`,
so on every row their two bits of `pattern_value` are equal and
`matched_patterns` contains either both names or neither. -/
theorem C10_spinning_top_detectors_identical (detOut : RawPattern → Int) :
    (pattern_value detOut).testBit 6 = (pattern_value detOut).testBit 2
    ∧ ("BullishSpinningTop" ∈ matched_patterns detOut ↔
        "BearishSpinningTop" ∈ matched_patterns detOut) := by
  constructor
  · have h5 := pattern_value_testBit detOut 5 (by decide)
    have h9 := pattern_value_testBit detOut 9 (by decide)
    by_cases hc : detOut RawPattern.CDLSPINNINGTOP ≠ 0
    · have t5 : (pattern_value detOut).testBit 6 = true := h5.mpr hc
      have t9 : (pattern_value detOut).testBit 2 = true := h9.mpr hc
      rw [t5, t9]
    · have t5 : ¬(pattern_value detOut).testBit 6 = true := fun hh => hc (h5.mp hh)
      have t9 : ¬(pattern_value detOut).testBit 2 = true := fun hh => hc (h9.mp hh)
      rw [Bool.not_eq_true] at t5 t9
      rw [t5, t9]
  · rw [spinning_mem_bull, spinning_mem_bear]

/-- C4 counterexample: in `CandlePatternRecognizer`'s catalog the
`BullishSpinningTop` / `BearishSpinningTop` pair is NOT discriminated by
close vs open — both names are bound to the same raw `CDLSPINNINGTOP`
detector, so under an output assignment where that detector fires on a row
with close 11 > open 10 (`envS`, `rowUp`) the bearish variant fires on an
up-row and both variants fire together, refuting the claim as stated for
this catalog. -/
theorem C4_counterexample :
    ¬ ∀ (tal : RawPattern → PriceRow → Int) (r : PriceRow),
        (tempFires tal r "BullishSpinningTop" = true → r.Close > r.Open)
        ∧ (tempFires tal r "BearishSpinningTop" = true → r.Close < r.Open)
        ∧ ¬(tempFires tal r "BullishSpinningTop" = true
            ∧ tempFires tal r "BearishSpinningTop" = true) := by
  intro h
  exact (h envS rowUp).2.2 ⟨by decide, by decide⟩

/-- C4 amended: the bullish/bearish Marubozu pair of `PatternEngine`
(pattern_engine.py ids 6 and 7) is discriminated by close vs open: the
bullish variant fires only when close > open, the bearish variant only when
close < open, and the two never both fire on the same row.  (In
`CandlePatternRecognizer` the SpinningTop pair shares a single undiscriminated
detector — see the counterexample and C10.) -/
theorem C4_amended_marubozu_discriminated (rawOut : RawPattern → Int) (r : PriceRow) :
    (evalEDetector rawOut r (enginePatterns.get ⟨5, by decide⟩).2.2 ≠ 0 →
      r.Close > r.Open)
    ∧ (evalEDetector rawOut r (enginePatterns.get ⟨6, by decide⟩).2.2 ≠ 0 →
      r.Close < r.Open)
    ∧ ¬(evalEDetector rawOut r (enginePatterns.get ⟨5, by decide⟩).2.2 ≠ 0
        ∧ evalEDetector rawOut r (enginePatterns.get ⟨6, by decide⟩).2.2 ≠ 0) := by
  have hb : evalEDetector rawOut r (enginePatterns.get ⟨5, by decide⟩).2.2 ≠ 0 →
      r.Close > r.Open := by
    intro hne
    by_contra hlt
    apply hne
    show Int.land (rawOut .CDLMARUBOZU) (if r.Close > r.Open then 1 else 0) = 0
    rw [if_neg hlt]
    exact land_zero_right _
  have hs : evalEDetector rawOut r (enginePatterns.get ⟨6, by decide⟩).2.2 ≠ 0 →
      r.Close < r.Open := by
    intro hne
    by_contra hlt
    apply hne
    show Int.land (rawOut .CDLMARUBOZU) (if r.Close < r.Open then 1 else 0) = 0
    rw [if_neg hlt]
    exact land_zero_right _
  exact ⟨hb, hs, fun hx => (lt_asymm (hb hx.1)) (hs hx.2)⟩

/-- Witness for the amended C4: with an odd `CDLMARUBOZU` output the bullish
variant fires on `rowUp`, and the theorem yields close > open there. -/
theorem C4_amended_witness : rowUp.Close > rowUp.Open :=
  (C4_amended_marubozu_discriminated rawOdd rowUp).1 (by decide)

/-! ## Persistence layer: upsert, registry and trace lemmas -/

theorem containsKey_upsert_self (tbl : List DBRow) (r : DBRow) :
    containsKey (upsertRow tbl r) r.symbol r.date = true := by
  by_cases h : containsKey tbl r.symbol r.date
  · simp [upsertRow, h]
  · rw [upsertRow, if_neg h]
    simp [containsKey, List.any_append]

theorem containsKey_upsert_mono (tbl : List DBRow) (r : DBRow) (s : String)
    (dt : CalDate) (h : containsKey tbl s dt = true) :
    containsKey (upsertRow tbl r) s dt = true := by
  by_cases hc : containsKey tbl r.symbol r.date
  · simpa [upsertRow, hc] using h
  · rw [upsertRow, if_neg hc]
    simp only [containsKey, List.any_append]
    simp only [containsKey] at h
    simp [h]

theorem upsertRow_of_contains (tbl : List DBRow) (r : DBRow)
    (h : containsKey tbl r.symbol r.date = true) : upsertRow tbl r = tbl := by
  simp [upsertRow, h]

theorem getRow_upsert (tbl : List DBRow) (r : DBRow) (s : String) (dt : CalDate)
    (q : DBRow) (h : getRow tbl s dt = some q) :
    getRow (upsertRow tbl r) s dt = some q := by
  by_cases hc : containsKey tbl r.symbol r.date
  · simpa [upsertRow, hc]
  · rw [upsertRow, if_neg hc]
    unfold getRow at h ⊢
    rw [List.find?_append, h]
    rfl

theorem containsKey_append (t1 t2 : List DBRow) (s : String) (dt : CalDate) :
    containsKey (t1 ++ t2) s dt = (containsKey t1 s dt || containsKey t2 s dt) := by
  simp [containsKey, List.any_append]

theorem containsKey_single (r : DBRow) (s : String) (dt : CalDate) :
    containsKey [r] s dt = (r.symbol == s && r.date == dt) := by
  simp [containsKey]

theorem uniqueKeysB_append (tbl : List DBRow) (r : DBRow)
    (hu : uniqueKeysB tbl = true) (hc : containsKey tbl r.symbol r.date = false) :
    uniqueKeysB (tbl ++ [r]) = true := by
  induction tbl with
  | nil => simp [uniqueKeysB, containsKey]
  | cons q rest ih =>
    simp only [uniqueKeysB, Bool.and_eq_true, Bool.not_eq_true'] at hu
    simp only [containsKey, List.any_cons, Bool.or_eq_false_iff] at hc
    simp only [List.cons_append, uniqueKeysB, Bool.and_eq_true, Bool.not_eq_true']
    refine ⟨?_, ih hu.2 hc.2⟩
    show containsKey (rest ++ [r]) q.symbol q.date = false
    rw [containsKey_append, Bool.or_eq_false_iff]
    refine ⟨hu.1, ?_⟩
    rw [containsKey_single]
    by_cases hs : r.symbol = q.symbol
    · by_cases hd : r.date = q.date
      · simp [hs, hd] at hc
      · simp [hd]
    · simp [hs]

theorem uniqueKeysB_upsert (tbl : List DBRow) (r : DBRow)
    (hu : uniqueKeysB tbl = true) : uniqueKeysB (upsertRow tbl r) = true := by
  by_cases hc : containsKey tbl r.symbol r.date
  · simpa [upsertRow, hc]
  · rw [upsertRow, if_neg hc]
    exact uniqueKeysB_append tbl r hu (by simpa using hc)

theorem lookupTable_nil (t : String) : lookupTable [] t = none := rfl

theorem lookupTable_cons (a : String) (tb : List DBRow) (rest : Tables) (t : String) :
    lookupTable ((a, tb) :: rest) t =
      if a == t then some tb else lookupTable rest t := by
  by_cases h : a == t <;> simp [lookupTable, List.find?_cons, h]

theorem lookup_applyUpsert_self (ts : Tables) (t : String) (r : DBRow)
    (tbl : List DBRow) (h : lookupTable ts t = some tbl) :
    lookupTable (applyUpsert ts t r) t = some (upsertRow tbl r) := by
  induction ts with
  | nil => simp [lookupTable] at h
  | cons p rest ih =>
    by_cases hp : p.1 == t
    · rw [applyUpsert, if_pos hp]
      rw [show p = (p.1, p.2) from rfl, lookupTable_cons, if_pos hp] at h
      rw [lookupTable_cons, if_pos hp]
      simp at h
      rw [h]
    · rw [applyUpsert, if_neg hp]
      rw [show p = (p.1, p.2) from rfl, lookupTable_cons, if_neg hp] at h
      rw [show p = (p.1, p.2) from rfl, lookupTable_cons, if_neg hp]
      exact ih h

theorem applyUpsert_of_none (ts : Tables) (t : String) (r : DBRow)
    (h : lookupTable ts t = none) : applyUpsert ts t r = ts := by
  induction ts with
  | nil => rfl
  | cons p rest ih =>
    by_cases hp : p.1 == t
    · rw [show p = (p.1, p.2) from rfl, lookupTable_cons, if_pos hp] at h
      simp at h
    · rw [show p = (p.1, p.2) from rfl, lookupTable_cons, if_neg hp] at h
      rw [applyUpsert, if_neg hp, ih h]

theorem lookup_applyUpsert_isSome (ts : Tables) (t : String) (r : DBRow) (u : String) :
    (lookupTable (applyUpsert ts t r) u).isSome = (lookupTable ts u).isSome := by
  induction ts with
  | nil => rfl
  | cons p rest ih =>
    by_cases hp : p.1 == t
    · rw [applyUpsert, if_pos hp]
      by_cases hu : p.1 == u
      · rw [lookupTable_cons, if_pos hu, show p = (p.1, p.2) from rfl,
          lookupTable_cons, if_pos hu]
        rfl
      · rw [lookupTable_cons, if_neg hu, show p = (p.1, p.2) from rfl,
          lookupTable_cons, if_neg hu]
    · rw [applyUpsert, if_neg hp]
      by_cases hu : p.1 == u
      · rw [show (p :: applyUpsert rest t r) = ((p.1, p.2) :: applyUpsert rest t r) from rfl,
          lookupTable_cons, if_pos hu, show p = (p.1, p.2) from rfl,
          lookupTable_cons, if_pos hu]
      · rw [show (p :: applyUpsert rest t r) = ((p.1, p.2) :: applyUpsert rest t r) from rfl,
          lookupTable_cons, if_neg hu, show p = (p.1, p.2) from rfl,
          lookupTable_cons, if_neg hu]
        exact ih

theorem hasTable_applyUpsert (ts : Tables) (t : String) (r : DBRow) (u : String) :
    hasTable (applyUpsert ts t r) u = hasTable ts u :=
  lookup_applyUpsert_isSome ts t r u

theorem applyUpsert_unchanged (ts : Tables) (t : String) (r : DBRow)
    (tbl : List DBRow) (h : lookupTable ts t = some tbl)
    (hr : upsertRow tbl r = tbl) : applyUpsert ts t r = ts := by
  induction ts with
  | nil => rfl
  | cons p rest ih =>
    by_cases hp : p.1 == t
    · rw [show p = (p.1, p.2) from rfl, lookupTable_cons, if_pos hp] at h
      simp at h
      rw [applyUpsert, if_pos hp, h, hr, ← h]
    · rw [show p = (p.1, p.2) from rfl, lookupTable_cons, if_neg hp] at h
      rw [applyUpsert, if_neg hp, ih h]

theorem containsKeyTs_applyUpsert_self (ts : Tables) (t : String) (r : DBRow)
    (h : hasTable ts t = true) :
    containsKeyTs (applyUpsert ts t r) t r.symbol r.date = true := by
  unfold hasTable at h
  obtain ⟨tbl, htbl⟩ := Option.isSome_iff_exists.mp h
  have h2 := lookup_applyUpsert_self ts t r tbl htbl
  simp [containsKeyTs, h2]
  exact containsKey_upsert_self tbl r

theorem containsKeyTs_applyUpsert_mono (ts : Tables) (t : String) (r : DBRow)
    (s : String) (dt : CalDate) (h : containsKeyTs ts t s dt = true) :
    containsKeyTs (applyUpsert ts t r) t s dt = true := by
  cases hl : lookupTable ts t with
  | none => simp [containsKeyTs, hl] at h
  | some tbl =>
    have h2 := lookup_applyUpsert_self ts t r tbl hl
    have h3 : containsKey tbl s dt = true := by simpa [containsKeyTs, hl] using h
    simp [containsKeyTs, h2]
    exact containsKey_upsert_mono tbl r s dt h3

theorem hasTable_bulkUpsert (ts : Tables) (t : String) (rs : List DBRow) (u : String) :
    hasTable (bulkUpsert ts t rs) u = hasTable ts u := by
  induction rs generalizing ts with
  | nil => rfl
  | cons r rest ih =>
    show hasTable (bulkUpsert (applyUpsert ts t r) t rest) u = _
    rw [ih, hasTable_applyUpsert]

theorem containsKeyTs_bulkUpsert_mono (ts : Tables) (t : String) (rs : List DBRow)
    (s : String) (dt : CalDate) (h : containsKeyTs ts t s dt = true) :
    containsKeyTs (bulkUpsert ts t rs) t s dt = true := by
  induction rs generalizing ts with
  | nil => exact h
  | cons r rest ih =>
    show containsKeyTs (bulkUpsert (applyUpsert ts t r) t rest) t s dt = true
    exact ih _ (containsKeyTs_applyUpsert_mono ts t r s dt h)

theorem bulkUpsert_contains_all (ts : Tables) (t : String) (rs : List DBRow)
    (hh : hasTable ts t = true) :
    ∀ r ∈ rs, containsKeyTs (bulkUpsert ts t rs) t r.symbol r.date = true := by
  induction rs generalizing ts with
  | nil => intro r hr; cases hr
  | cons a rest ih =>
    intro r hr
    show containsKeyTs (bulkUpsert (applyUpsert ts t a) t rest) t r.symbol r.date = true
    rcases List.mem_cons.mp hr with rfl | hr'
    · exact containsKeyTs_bulkUpsert_mono _ t rest _ _
        (containsKeyTs_applyUpsert_self ts t r hh)
    · exact ih (applyUpsert ts t a) (by rw [hasTable_applyUpsert]; exact hh) r hr'

theorem bulkUpsert_of_contains (ts : Tables) (t : String) (rs : List DBRow)
    (h : ∀ r ∈ rs, containsKeyTs ts t r.symbol r.date = true) :
    bulkUpsert ts t rs = ts := by
  induction rs with
  | nil => rfl
  | cons a rest ih =>
    have ha := h a (List.mem_cons_self _ _)
    cases hl : lookupTable ts t with
    | none => simp [containsKeyTs, hl] at ha
    | some tbl =>
      have hck : containsKey tbl a.symbol a.date = true := by
        simpa [containsKeyTs, hl] using ha
      have heq : applyUpsert ts t a = ts :=
        applyUpsert_unchanged ts t a tbl hl (upsertRow_of_contains tbl a hck)
      show bulkUpsert (applyUpsert ts t a) t rest = ts
      rw [heq]
      exact ih (fun r hr => h r (List.mem_cons_of_mem _ hr))

theorem bulkUpsert_idem (ts : Tables) (t : String) (rs : List DBRow)
    (hh : hasTable ts t = true) :
    bulkUpsert (bulkUpsert ts t rs) t rs = bulkUpsert ts t rs :=
  bulkUpsert_of_contains _ _ _ (bulkUpsert_contains_all ts t rs hh)

theorem getRowTs_applyUpsert (ts : Tables) (t : String) (r : DBRow) (s : String)
    (dt : CalDate) (q : DBRow) (h : getRowTs ts t s dt = some q) :
    getRowTs (applyUpsert ts t r) t s dt = some q := by
  cases hl : lookupTable ts t with
  | none => simp [getRowTs, hl] at h
  | some tbl =>
    have h2 := lookup_applyUpsert_self ts t r tbl hl
    have hg : getRow tbl s dt = some q := by simpa [getRowTs, hl] using h
    simp [getRowTs, h2]
    exact getRow_upsert tbl r s dt q hg

theorem getRowTs_bulkUpsert (ts : Tables) (t : String) (rs : List DBRow) (s : String)
    (dt : CalDate) (q : DBRow) (h : getRowTs ts t s dt = some q) :
    getRowTs (bulkUpsert ts t rs) t s dt = some q := by
  induction rs generalizing ts with
  | nil => exact h
  | cons a rest ih =>
    show getRowTs (bulkUpsert (applyUpsert ts t a) t rest) t s dt = some q
    exact ih _ (getRowTs_applyUpsert ts t a s dt q h)

theorem TablesOKB_applyUpsert (ts : Tables) (t : String) (r : DBRow)
    (h : TablesOKB ts = true) : TablesOKB (applyUpsert ts t r) = true := by
  induction ts with
  | nil => rfl
  | cons p rest ih =>
    simp only [TablesOKB, List.all_cons, Bool.and_eq_true] at h
    by_cases hp : p.1 == t
    · rw [applyUpsert, if_pos hp]
      simp only [TablesOKB, List.all_cons, Bool.and_eq_true]
      exact ⟨uniqueKeysB_upsert p.2 r h.1, h.2⟩
    · rw [applyUpsert, if_neg hp]
      simp only [TablesOKB, List.all_cons, Bool.and_eq_true]
      exact ⟨h.1, ih h.2⟩

theorem TablesOKB_bulkUpsert (ts : Tables) (t : String) (rs : List DBRow)
    (h : TablesOKB ts = true) : TablesOKB (bulkUpsert ts t rs) = true := by
  induction rs generalizing ts with
  | nil => exact h
  | cons a rest ih =>
    show TablesOKB (bulkUpsert (applyUpsert ts t a) t rest) = true
    exact ih _ (TablesOKB_applyUpsert ts t a h)

theorem TablesOKB_append_empty (ts : Tables) (t : String)
    (h : TablesOKB ts = true) : TablesOKB (ts ++ [(t, [])]) = true := by
  simp only [TablesOKB, List.all_append, List.all_cons, List.all_nil,
    Bool.and_eq_true]
  exact ⟨h, by simp [uniqueKeysB], trivial⟩

theorem create_table_cached (st : MState) (t : String) (hc : t ∈ st.cache) :
    create_table st t = (true, st, []) := by
  simp [create_table, check_table_exists, hc]

theorem create_table_found (st : MState) (t : String) (hc : t ∉ st.cache)
    (hh : hasTable st.store.tables t = true) :
    create_table st t = (true, { st with cache := t :: st.cache }, [.existenceChecked t]) := by
  simp [create_table, check_table_exists, hc, hh]

theorem create_table_already_registered (st : MState) (t : String)
    (hc : t ∉ st.cache) (hh : hasTable st.store.tables t = false)
    (hm : t ∈ st.metadata) :
    create_table st t =
      (false, st, [.existenceChecked t, .logError (.createTable t)]) := by
  simp [create_table, check_table_exists, hc, hh, hm]

theorem create_table_fails (st : MState) (t : String) (hc : t ∉ st.cache)
    (hh : hasTable st.store.tables t = false) (hm : t ∉ st.metadata)
    (hf : st.store.createFails t = true) :
    create_table st t =
      (false, { st with metadata := t :: st.metadata },
       [.existenceChecked t, .logError (.createTable t)]) := by
  simp [create_table, check_table_exists, hc, hh, hm, hf]

theorem create_table_creates (st : MState) (t : String) (hc : t ∉ st.cache)
    (hh : hasTable st.store.tables t = false) (hm : t ∉ st.metadata)
    (hf : st.store.createFails t = false) :
    create_table st t =
      (true,
       { st with
          store := { st.store with tables := st.store.tables ++ [(t, [])] }
          cache := t :: st.cache
          metadata := t :: st.metadata },
       [.existenceChecked t, .tableCreated t, .indexesCreated t]) := by
  simp [create_table, check_table_exists, hc, hh, hm, hf]

/-- A second `create_table` call for the same name leaves the state of the
first call's result unchanged. -/
theorem create_table_stable (st : MState) (t : String) :
    (create_table (create_table st t).2.1 t).2.1 = (create_table st t).2.1 := by
  by_cases hc : t ∈ st.cache
  · rw [create_table_cached st t hc, create_table_cached st t hc]
  · by_cases hh : hasTable st.store.tables t = true
    · rw [create_table_found st t hc hh]
      rw [create_table_cached _ t (List.mem_cons_self _ _)]
    · rw [Bool.not_eq_true] at hh
      by_cases hm : t ∈ st.metadata
      · rw [create_table_already_registered st t hc hh hm,
          create_table_already_registered st t hc hh hm]
      · by_cases hf : st.store.createFails t = true
        · rw [create_table_fails st t hc hh hm hf]
          show (create_table { st with metadata := t :: st.metadata } t).2.1
            = { st with metadata := t :: st.metadata }
          rw [create_table_already_registered { st with metadata := t :: st.metadata }
            t hc hh (List.mem_cons_self _ _)]
        · rw [Bool.not_eq_true] at hf
          rw [create_table_creates st t hc hh hm hf]
          rw [create_table_cached _ t (List.mem_cons_self _ _)]

/-- If after `create_table` the table exists, its name is in the cache. -/
theorem create_table_cache_of_hasTable (st : MState) (t : String)
    (h : hasTable (create_table st t).2.1.store.tables t = true) :
    t ∈ (create_table st t).2.1.cache := by
  by_cases hc : t ∈ st.cache
  · rw [create_table_cached st t hc]; exact hc
  · by_cases hh : hasTable st.store.tables t = true
    · rw [create_table_found st t hc hh]
      exact List.mem_cons_self _ _
    · rw [Bool.not_eq_true] at hh
      by_cases hm : t ∈ st.metadata
      · rw [create_table_already_registered st t hc hh hm] at h
        rw [hh] at h
        cases h
      · by_cases hf : st.store.createFails t = true
        · rw [create_table_fails st t hc hh hm hf] at h
          have h' : hasTable st.store.tables t = true := h
          rw [hh] at h'
          cases h'
        · rw [Bool.not_eq_true] at hf
          rw [create_table_creates st t hc hh hm hf]
          exact List.mem_cons_self _ _

theorem create_table_tables (st : MState) (t : String) :
    (create_table st t).2.1.store.tables = st.store.tables ∨
    (create_table st t).2.1.store.tables = st.store.tables ++ [(t, [])] := by
  by_cases hc : t ∈ st.cache
  · left; rw [create_table_cached st t hc]
  · by_cases hh : hasTable st.store.tables t = true
    · left; rw [create_table_found st t hc hh]
    · rw [Bool.not_eq_true] at hh
      by_cases hm : t ∈ st.metadata
      · left; rw [create_table_already_registered st t hc hh hm]
      · by_cases hf : st.store.createFails t = true
        · left; rw [create_table_fails st t hc hh hm hf]
        · rw [Bool.not_eq_true] at hf
          right; rw [create_table_creates st t hc hh hm hf]

theorem create_table_cache_eq (st : MState) (t : String) :
    (create_table st t).2.1.cache = st.cache ∨
    (create_table st t).2.1.cache = t :: st.cache := by
  by_cases hc : t ∈ st.cache
  · left; rw [create_table_cached st t hc]
  · by_cases hh : hasTable st.store.tables t = true
    · right; rw [create_table_found st t hc hh]
    · rw [Bool.not_eq_true] at hh
      by_cases hm : t ∈ st.metadata
      · left; rw [create_table_already_registered st t hc hh hm]
      · by_cases hf : st.store.createFails t = true
        · left; rw [create_table_fails st t hc hh hm hf]
        · rw [Bool.not_eq_true] at hf
          right; rw [create_table_creates st t hc hh hm hf]

theorem applyUpsert_idem (ts : Tables) (t : String) (r : DBRow)
    (hh : hasTable ts t = true) :
    applyUpsert (applyUpsert ts t r) t r = applyUpsert ts t r := by
  obtain ⟨tbl, hl⟩ := Option.isSome_iff_exists.mp hh
  have h2 := lookup_applyUpsert_self ts t r tbl hl
  exact applyUpsert_unchanged _ t r (upsertRow tbl r) h2
    (upsertRow_of_contains _ r (containsKey_upsert_self tbl r))

theorem insert_data_nil (st : MState) (symbol : String) :
    insert_data st symbol [] =
      (false, (create_table st ("stock_" ++ lowerStr symbol)).2.1,
       (create_table st ("stock_" ++ lowerStr symbol)).2.2 ++
         [.logError (.insertFail symbol)]) := rfl

theorem insert_data_cons_has (st : MState) (symbol : String) (r : EncRow)
    (rest : List EncRow)
    (hh : hasTable (create_table st ("stock_" ++ lowerStr symbol)).2.1.store.tables
            ("stock_" ++ lowerStr symbol) = true) :
    insert_data st symbol (r :: rest) =
      (true,
       { (create_table st ("stock_" ++ lowerStr symbol)).2.1 with
          store := { (create_table st ("stock_" ++ lowerStr symbol)).2.1.store with
                      tables := applyUpsert
                        (create_table st ("stock_" ++ lowerStr symbol)).2.1.store.tables
                        ("stock_" ++ lowerStr symbol) (mkRecord symbol r) } },
       (create_table st ("stock_" ++ lowerStr symbol)).2.2 ++
         [.insertIssued ("stock_" ++ lowerStr symbol) 1]) := by
  simp [insert_data, hh]

theorem insert_data_cons_missing (st : MState) (symbol : String) (r : EncRow)
    (rest : List EncRow)
    (hh : hasTable (create_table st ("stock_" ++ lowerStr symbol)).2.1.store.tables
            ("stock_" ++ lowerStr symbol) = false) :
    insert_data st symbol (r :: rest) =
      (false, (create_table st ("stock_" ++ lowerStr symbol)).2.1,
       (create_table st ("stock_" ++ lowerStr symbol)).2.2 ++
         [.insertIssued ("stock_" ++ lowerStr symbol) 1,
          .logError (.insertFail symbol)]) := by
  simp [insert_data, hh]

theorem bulk_insert_empty (st : MState) (df : List EncRow)
    (he : (df.filter hasAnyPattern).isEmpty = true) :
    bulk_insert_common st df = (create_table st "common_stock_data").2 := by
  simp [bulk_insert_common, he]

theorem bulk_insert_has (st : MState) (df : List EncRow)
    (he : (df.filter hasAnyPattern).isEmpty = false)
    (hh : hasTable (create_table st "common_stock_data").2.1.store.tables
            "common_stock_data" = true) :
    bulk_insert_common st df =
      ({ (create_table st "common_stock_data").2.1 with
          store := { (create_table st "common_stock_data").2.1.store with
                      tables := bulkUpsert
                        (create_table st "common_stock_data").2.1.store.tables
                        "common_stock_data"
                        ((df.filter hasAnyPattern).map (fun r => mkRecord r.bar.Symbol r)) }
          metadata := registerTable (create_table st "common_stock_data").2.1.metadata
                        "common_stock_data" },
       (create_table st "common_stock_data").2.2 ++
         [.insertIssued "common_stock_data"
            ((df.filter hasAnyPattern).map (fun r => mkRecord r.bar.Symbol r)).length,
          .logInfo "common_stock_data"]) := by
  simp [bulk_insert_common, he, hh]

theorem bulk_insert_missing_registered (st : MState) (df : List EncRow)
    (he : (df.filter hasAnyPattern).isEmpty = false)
    (hh : hasTable (create_table st "common_stock_data").2.1.store.tables
            "common_stock_data" = false)
    (hm : "common_stock_data" ∈ (create_table st "common_stock_data").2.1.metadata) :
    bulk_insert_common st df =
      ((create_table st "common_stock_data").2.1,
       (create_table st "common_stock_data").2.2 ++
         [.insertIssued "common_stock_data"
            ((df.filter hasAnyPattern).map (fun r => mkRecord r.bar.Symbol r)).length,
          .logError .bulkFail]) := by
  simp [bulk_insert_common, he, hh, hm]

theorem bulk_insert_missing_unregistered (st : MState) (df : List EncRow)
    (he : (df.filter hasAnyPattern).isEmpty = false)
    (hh : hasTable (create_table st "common_stock_data").2.1.store.tables
            "common_stock_data" = false)
    (hm : "common_stock_data" ∉ (create_table st "common_stock_data").2.1.metadata) :
    bulk_insert_common st df =
      ((create_table st "common_stock_data").2.1,
       (create_table st "common_stock_data").2.2 ++ [.logError .bulkFail]) := by
  simp [bulk_insert_common, he, hh, hm]

theorem create_table_hasTable_case (st : MState) (t : String)
    (hh : hasTable st.store.tables t = true) :
    (create_table st t).1 = true
    ∧ (create_table st t).2.1.store.tables = st.store.tables
    ∧ ∀ c, Event.logError c ∉ (create_table st t).2.2 := by
  by_cases hc : t ∈ st.cache
  · rw [create_table_cached st t hc]; exact ⟨rfl, rfl, by simp⟩
  · rw [create_table_found st t hc hh]; exact ⟨rfl, rfl, by simp⟩

theorem create_table_events (st : MState) (t : String) (e : Event)
    (he : e ∈ (create_table st t).2.2) :
    e = Event.existenceChecked t ∨ e = Event.tableCreated t
      ∨ e = Event.indexesCreated t ∨ e = Event.logError (.createTable t) := by
  by_cases hc : t ∈ st.cache
  · rw [create_table_cached st t hc] at he; cases he
  · by_cases hh : hasTable st.store.tables t = true
    · rw [create_table_found st t hc hh] at he
      simp at he
      left; exact he
    · rw [Bool.not_eq_true] at hh
      by_cases hm : t ∈ st.metadata
      · rw [create_table_already_registered st t hc hh hm] at he
        simp at he
        tauto
      · by_cases hf : st.store.createFails t = true
        · rw [create_table_fails st t hc hh hm hf] at he
          simp at he
          tauto
        · rw [Bool.not_eq_true] at hf
          rw [create_table_creates st t hc hh hm hf] at he
          simp at he
          tauto

theorem insert_data_tables_idem (st : MState) (symbol : String) (data : List EncRow) :
    (insert_data (insert_data st symbol data).2.1 symbol data).2.1.store.tables
      = (insert_data st symbol data).2.1.store.tables := by
  cases data with
  | nil =>
    rw [insert_data_nil, insert_data_nil]
    show (create_table (create_table st _).2.1 _).2.1.store.tables = _
    rw [create_table_stable]
  | cons r rest =>
    by_cases hh : hasTable
        (create_table st ("stock_" ++ lowerStr symbol)).2.1.store.tables
        ("stock_" ++ lowerStr symbol) = true
    · have hcache := create_table_cache_of_hasTable st ("stock_" ++ lowerStr symbol) hh
      rw [insert_data_cons_has st symbol r rest hh]
      have hcache2 : ("stock_" ++ lowerStr symbol) ∈
          ({ (create_table st ("stock_" ++ lowerStr symbol)).2.1 with
              store := { (create_table st ("stock_" ++ lowerStr symbol)).2.1.store with
                          tables := applyUpsert
                            (create_table st ("stock_" ++ lowerStr symbol)).2.1.store.tables
                            ("stock_" ++ lowerStr symbol)
                            (mkRecord symbol r) } } : MState).cache := hcache
      have h2 := create_table_cached _ ("stock_" ++ lowerStr symbol) hcache2
      have hh2 : hasTable
          (create_table
            ({ (create_table st ("stock_" ++ lowerStr symbol)).2.1 with
                store := { (create_table st ("stock_" ++ lowerStr symbol)).2.1.store with
                            tables := applyUpsert
                              (create_table st ("stock_" ++ lowerStr symbol)).2.1.store.tables
                              ("stock_" ++ lowerStr symbol)
                              (mkRecord symbol r) } } : MState)
            ("stock_" ++ lowerStr symbol)).2.1.store.tables
          ("stock_" ++ lowerStr symbol) = true := by
        rw [h2]
        show hasTable (applyUpsert _ _ _) _ = true
        rw [hasTable_applyUpsert]
        exact hh
      rw [insert_data_cons_has _ symbol r rest hh2]
      show applyUpsert (create_table _ _).2.1.store.tables _ _ = _
      rw [h2]
      show applyUpsert (applyUpsert _ _ _) _ _ = _
      rw [applyUpsert_idem _ _ _ hh]
    · rw [Bool.not_eq_true] at hh
      rw [insert_data_cons_missing st symbol r rest hh]
      have hstable := create_table_stable st ("stock_" ++ lowerStr symbol)
      have hh2 : hasTable
          (create_table (create_table st ("stock_" ++ lowerStr symbol)).2.1
            ("stock_" ++ lowerStr symbol)).2.1.store.tables
          ("stock_" ++ lowerStr symbol) = false := by
        rw [hstable]; exact hh
      rw [insert_data_cons_missing _ symbol r rest hh2]
      rw [hstable]

theorem bulk_tables_idem (st : MState) (df : List EncRow) :
    (bulk_insert_common (bulk_insert_common st df).1 df).1.store.tables
      = (bulk_insert_common st df).1.store.tables := by
  by_cases he : (df.filter hasAnyPattern).isEmpty = true
  · rw [bulk_insert_empty st df he, bulk_insert_empty _ df he]
    show (create_table (create_table st _).2.1 _).2.1.store.tables = _
    rw [create_table_stable]
  · rw [Bool.not_eq_true] at he
    by_cases hh : hasTable
        (create_table st "common_stock_data").2.1.store.tables "common_stock_data" = true
    · have hcache := create_table_cache_of_hasTable st "common_stock_data" hh
      rw [bulk_insert_has st df he hh]
      have hcache2 : "common_stock_data" ∈
          ({ (create_table st "common_stock_data").2.1 with
              store := { (create_table st "common_stock_data").2.1.store with
                          tables := bulkUpsert
                            (create_table st "common_stock_data").2.1.store.tables
                            "common_stock_data"
                            ((df.filter hasAnyPattern).map
                              (fun r => mkRecord r.bar.Symbol r)) }
              metadata := registerTable
                (create_table st "common_stock_data").2.1.metadata
                "common_stock_data" } : MState).cache :=
        hcache
      have h2 := create_table_cached _ "common_stock_data" hcache2
      have hh2 : hasTable
          (create_table
            ({ (create_table st "common_stock_data").2.1 with
                store := { (create_table st "common_stock_data").2.1.store with
                            tables := bulkUpsert
                              (create_table st "common_stock_data").2.1.store.tables
                              "common_stock_data"
                              ((df.filter hasAnyPattern).map
                                (fun r => mkRecord r.bar.Symbol r)) }
                metadata := registerTable
                  (create_table st "common_stock_data").2.1.metadata
                  "common_stock_data" } : MState)
            "common_stock_data").2.1.store.tables "common_stock_data" = true := by
        rw [h2]
        show hasTable (bulkUpsert _ _ _) _ = true
        rw [hasTable_bulkUpsert]
        exact hh
      rw [bulk_insert_has _ df he hh2]
      show bulkUpsert (create_table _ _).2.1.store.tables _ _ = _
      rw [h2]
      show bulkUpsert (bulkUpsert _ _ _) _ _ = _
      rw [bulkUpsert_idem _ _ _ hh]
    · rw [Bool.not_eq_true] at hh
      have hstable := create_table_stable st "common_stock_data"
      have hh2 : hasTable
          (create_table (create_table st "common_stock_data").2.1
            "common_stock_data").2.1.store.tables "common_stock_data" = false := by
        rw [hstable]; exact hh
      by_cases hm : "common_stock_data" ∈
          (create_table st "common_stock_data").2.1.metadata
      · rw [bulk_insert_missing_registered st df he hh hm]
        have hm2 : "common_stock_data" ∈
            (create_table (create_table st "common_stock_data").2.1
              "common_stock_data").2.1.metadata := by
          rw [hstable]; exact hm
        rw [bulk_insert_missing_registered _ df he hh2 hm2]
        rw [hstable]
      · rw [bulk_insert_missing_unregistered st df he hh hm]
        have hm2 : "common_stock_data" ∉
            (create_table (create_table st "common_stock_data").2.1
              "common_stock_data").2.1.metadata := by
          rw [hstable]; exact hm
        rw [bulk_insert_missing_unregistered _ df he hh2 hm2]
        rw [hstable]

theorem TablesOKB_create (st : MState) (t : String)
    (h : TablesOKB st.store.tables = true) :
    TablesOKB (create_table st t).2.1.store.tables = true := by
  rcases create_table_tables st t with he | he <;> rw [he]
  · exact h
  · exact TablesOKB_append_empty _ _ h

theorem TablesOKB_insert (st : MState) (symbol : String) (data : List EncRow)
    (h : TablesOKB st.store.tables = true) :
    TablesOKB (insert_data st symbol data).2.1.store.tables = true := by
  cases data with
  | nil =>
    rw [insert_data_nil]
    exact TablesOKB_create st _ h
  | cons r rest =>
    by_cases hh : hasTable
        (create_table st ("stock_" ++ lowerStr symbol)).2.1.store.tables
        ("stock_" ++ lowerStr symbol) = true
    · rw [insert_data_cons_has st symbol r rest hh]
      exact TablesOKB_applyUpsert _ _ _ (TablesOKB_create st _ h)
    · rw [Bool.not_eq_true] at hh
      rw [insert_data_cons_missing st symbol r rest hh]
      exact TablesOKB_create st _ h

theorem TablesOKB_bulk (st : MState) (df : List EncRow)
    (h : TablesOKB st.store.tables = true) :
    TablesOKB (bulk_insert_common st df).1.store.tables = true := by
  by_cases he : (df.filter hasAnyPattern).isEmpty = true
  · rw [bulk_insert_empty st df he]
    exact TablesOKB_create st _ h
  · rw [Bool.not_eq_true] at he
    by_cases hh : hasTable
        (create_table st "common_stock_data").2.1.store.tables "common_stock_data" = true
    · rw [bulk_insert_has st df he hh]
      exact TablesOKB_bulkUpsert _ _ _ (TablesOKB_create st _ h)
    · rw [Bool.not_eq_true] at hh
      by_cases hm : "common_stock_data" ∈
          (create_table st "common_stock_data").2.1.metadata
      · rw [bulk_insert_missing_registered st df he hh hm]
        exact TablesOKB_create st _ h
      · rw [bulk_insert_missing_unregistered st df he hh hm]
        exact TablesOKB_create st _ h

theorem insert_conflict_unchanged (st : MState) (symbol : String)
    (data : List EncRow) (r : EncRow) (tbl : List DBRow)
    (hhead : data.head? = some r)
    (hl : lookupTable st.store.tables ("stock_" ++ lowerStr symbol) = some tbl)
    (hk : containsKey tbl symbol r.bar.Date = true) :
    (insert_data st symbol data).1 = true
    ∧ (insert_data st symbol data).2.1.store.tables = st.store.tables
    ∧ ∀ c, Event.logError c ∉ (insert_data st symbol data).2.2 := by
  have hh : hasTable st.store.tables ("stock_" ++ lowerStr symbol) = true := by
    rw [hasTable, hl]; rfl
  obtain ⟨hc1, hc2, hc3⟩ := create_table_hasTable_case st ("stock_" ++ lowerStr symbol) hh
  cases data with
  | nil => exact absurd hhead (by simp)
  | cons a rest =>
    have har : a = r := by simpa using hhead
    subst har
    have hh2 : hasTable
        (create_table st ("stock_" ++ lowerStr symbol)).2.1.store.tables
        ("stock_" ++ lowerStr symbol) = true := by rw [hc2]; exact hh
    rw [insert_data_cons_has st symbol a rest hh2]
    refine ⟨rfl, ?_, ?_⟩
    · show applyUpsert (create_table st _).2.1.store.tables _ (mkRecord symbol a)
        = st.store.tables
      rw [hc2]
      exact applyUpsert_unchanged st.store.tables _ _ tbl hl
        (upsertRow_of_contains tbl _ hk)
    · intro c hmem
      rcases List.mem_append.mp hmem with hin | hin
      · exact hc3 c hin
      · simp at hin

theorem bulk_no_overwrite (st : MState) (df : List EncRow) (s : String)
    (dt : CalDate) (q : DBRow)
    (hq : getRowTs st.store.tables "common_stock_data" s dt = some q) :
    getRowTs (bulk_insert_common st df).1.store.tables "common_stock_data" s dt = some q
    ∧ ∀ c, Event.logError c ∉ (bulk_insert_common st df).2 := by
  have hl : ∃ tbl, lookupTable st.store.tables "common_stock_data" = some tbl := by
    cases hlk : lookupTable st.store.tables "common_stock_data" with
    | none => rw [getRowTs, hlk] at hq; cases hq
    | some tbl => exact ⟨tbl, rfl⟩
  obtain ⟨tbl, hl⟩ := hl
  have hh : hasTable st.store.tables "common_stock_data" = true := by
    rw [hasTable, hl]; rfl
  obtain ⟨_, hc2, hc3⟩ := create_table_hasTable_case st "common_stock_data" hh
  by_cases he : (df.filter hasAnyPattern).isEmpty = true
  · rw [bulk_insert_empty st df he]
    constructor
    · show getRowTs (create_table st _).2.1.store.tables _ s dt = some q
      rw [hc2]; exact hq
    · intro c hmem
      exact hc3 c hmem
  · rw [Bool.not_eq_true] at he
    have hh2 : hasTable
        (create_table st "common_stock_data").2.1.store.tables "common_stock_data" = true := by
      rw [hc2]; exact hh
    rw [bulk_insert_has st df he hh2]
    constructor
    · show getRowTs (bulkUpsert (create_table st _).2.1.store.tables _ _) _ s dt = some q
      rw [hc2]
      exact getRowTs_bulkUpsert _ _ _ _ _ _ hq
    · intro c hmem
      rcases List.mem_append.mp hmem with hin | hin
      · exact hc3 c hin
      · simp at hin

/-! ## Claims about the persistence layer -/

/-- C2: the single-row upsert run against a per-symbol table that already
holds a row with the incoming `(symbol, date)` key returns `True`, leaves
every table unchanged and logs no error; the bulk upsert never overwrites a
row already stored under a `(symbol, date)` key in the shared table and logs
no error when that table exists; and re-running either write with identical
input leaves the tables (hence every row count) exactly as after the first
run. -/
theorem C2_idempotent_upserts :
    (∀ (st : MState) (symbol : String) (data : List EncRow) (r : EncRow)
        (tbl : List DBRow),
        data.head? = some r →
        lookupTable st.store.tables ("stock_" ++ lowerStr symbol) = some tbl →
        containsKey tbl symbol r.bar.Date = true →
        (insert_data st symbol data).1 = true
        ∧ (insert_data st symbol data).2.1.store.tables = st.store.tables
        ∧ ∀ c, Event.logError c ∉ (insert_data st symbol data).2.2)
    ∧ (∀ (st : MState) (df : List EncRow) (s : String) (dt : CalDate) (q : DBRow),
        getRowTs st.store.tables "common_stock_data" s dt = some q →
        getRowTs (bulk_insert_common st df).1.store.tables "common_stock_data" s dt
            = some q
        ∧ ∀ c, Event.logError c ∉ (bulk_insert_common st df).2)
    ∧ (∀ (st : MState) (symbol : String) (data : List EncRow),
        (insert_data (insert_data st symbol data).2.1 symbol data).2.1.store.tables
          = (insert_data st symbol data).2.1.store.tables)
    ∧ (∀ (st : MState) (df : List EncRow),
        (bulk_insert_common (bulk_insert_common st df).1 df).1.store.tables
          = (bulk_insert_common st df).1.store.tables) :=
  ⟨insert_conflict_unchanged, bulk_no_overwrite, insert_data_tables_idem,
   bulk_tables_idem⟩

/-- Witness for C2 at the pre-populated store `stA`. -/
theorem C2_witness :
    ((insert_data stA "ABC" [rowA]).1 = true
     ∧ (insert_data stA "ABC" [rowA]).2.1.store.tables = stA.store.tables
     ∧ ∀ c, Event.logError c ∉ (insert_data stA "ABC" [rowA]).2.2)
    ∧ (getRowTs (bulk_insert_common stA [rowA]).1.store.tables "common_stock_data"
          "ABC" ⟨2025, 1, 6⟩ = some dbRowA
       ∧ ∀ c, Event.logError c ∉ (bulk_insert_common stA [rowA]).2) :=
  ⟨C2_idempotent_upserts.1 stA "ABC" [rowA] rowA [dbRowA] rfl (by decide) (by decide),
   C2_idempotent_upserts.2.1 stA [rowA] "ABC" ⟨2025, 1, 6⟩ dbRowA (by decide)⟩

/-- C3: every state reachable from a state whose tables satisfy the
at-most-one-row-per-(symbol, date) invariant by any sequence of `insert_data`
and `bulk_insert_common` operations still satisfies it — each write preserves
the central uniqueness invariant in every destination table. -/
theorem C3_uniqueness_invariant (ops : List Op) (st : MState)
    (h : TablesOKB st.store.tables = true) :
    TablesOKB (applyOps st ops).store.tables = true := by
  induction ops generalizing st with
  | nil => exact h
  | cons op rest ih =>
    show TablesOKB (applyOps (applyOp st op) rest).store.tables = true
    apply ih
    cases op with
    | ins s d => exact TablesOKB_insert st s d h
    | bulk df => exact TablesOKB_bulk st df h

/-- Witness for C3: the invariant holds after an insert and a bulk insert
from the empty store. -/
theorem C3_witness : TablesOKB (applyOps stZ opsW).store.tables = true :=
  C3_uniqueness_invariant opsW stZ (by decide)

/-- C5 amended: `insert_data` and `bulk_insert_common` call `create_table`
but ignore its result, and both still issue their INSERT after a failed
creation.  `insert_data` builds a raw text INSERT and executes it; it fails
at the database, is caught and logged, and `False` is returned with the
store unchanged.  `bulk_insert_common` prepares its statement from the
`Table` object that the failed `create_table` call had already registered in
the shared metadata (so no reflection happens and nothing raises before
execution), and its INSERT is likewise issued, fails at the database, and is
caught and logged, the store again unchanged. -/
theorem C5_amended_insert_still_attempted :
    (∀ (st : MState) (symbol : String) (data : List EncRow) (r : EncRow),
        ("stock_" ++ lowerStr symbol) ∉ st.cache →
        hasTable st.store.tables ("stock_" ++ lowerStr symbol) = false →
        ("stock_" ++ lowerStr symbol) ∉ st.metadata →
        st.store.createFails ("stock_" ++ lowerStr symbol) = true →
        data.head? = some r →
        (create_table st ("stock_" ++ lowerStr symbol)).1 = false
        ∧ (insert_data st symbol data).1 = false
        ∧ Event.insertIssued ("stock_" ++ lowerStr symbol) 1 ∈
            (insert_data st symbol data).2.2
        ∧ Event.logError (.insertFail symbol) ∈ (insert_data st symbol data).2.2
        ∧ (insert_data st symbol data).2.1.store.tables = st.store.tables)
    ∧ (∀ (st : MState) (df : List EncRow),
        "common_stock_data" ∉ st.cache →
        hasTable st.store.tables "common_stock_data" = false →
        "common_stock_data" ∉ st.metadata →
        st.store.createFails "common_stock_data" = true →
        (df.filter hasAnyPattern).isEmpty = false →
        (create_table st "common_stock_data").1 = false
        ∧ Event.insertIssued "common_stock_data" (df.filter hasAnyPattern).length ∈
            (bulk_insert_common st df).2
        ∧ Event.logError .bulkFail ∈ (bulk_insert_common st df).2
        ∧ (bulk_insert_common st df).1.store.tables = st.store.tables) := by
  constructor
  · intro st symbol data r hc hh hm hf hhead
    have hcf := create_table_fails st ("stock_" ++ lowerStr symbol) hc hh hm hf
    cases data with
    | nil => exact absurd hhead (by simp)
    | cons a rest =>
      have hh2 : hasTable
          (create_table st ("stock_" ++ lowerStr symbol)).2.1.store.tables
          ("stock_" ++ lowerStr symbol) = false := by rw [hcf]; exact hh
      rw [insert_data_cons_missing st symbol a rest hh2]
      refine ⟨by rw [hcf], rfl, ?_, ?_, by rw [hcf]⟩
      · rw [hcf]; simp
      · rw [hcf]; simp
  · intro st df hc hh hm hf he
    have hcf := create_table_fails st "common_stock_data" hc hh hm hf
    have hh2 : hasTable
        (create_table st "common_stock_data").2.1.store.tables
        "common_stock_data" = false := by rw [hcf]; exact hh
    have hm2 : "common_stock_data" ∈
        (create_table st "common_stock_data").2.1.metadata := by
      rw [hcf]; exact List.mem_cons_self _ _
    rw [bulk_insert_missing_registered st df he hh2 hm2]
    refine ⟨by rw [hcf], ?_, ?_, by rw [hcf]⟩
    · simp
    · simp

/-- Witness for the amended C5 at the creation-failing stores `stC` (per-
symbol path) and `stCF` (shared-table path). -/
theorem C5_witness :
    ((create_table stC ("stock_" ++ lowerStr "ABC")).1 = false
     ∧ (insert_data stC "ABC" [rowA]).1 = false
     ∧ Event.insertIssued ("stock_" ++ lowerStr "ABC") 1 ∈
         (insert_data stC "ABC" [rowA]).2.2
     ∧ Event.logError (.insertFail "ABC") ∈ (insert_data stC "ABC" [rowA]).2.2
     ∧ (insert_data stC "ABC" [rowA]).2.1.store.tables = stC.store.tables)
    ∧ ((create_table stCF "common_stock_data").1 = false
       ∧ Event.insertIssued "common_stock_data" ([rowA].filter hasAnyPattern).length ∈
           (bulk_insert_common stCF [rowA]).2
       ∧ Event.logError .bulkFail ∈ (bulk_insert_common stCF [rowA]).2
       ∧ (bulk_insert_common stCF [rowA]).1.store.tables = stCF.store.tables) :=
  ⟨C5_amended_insert_still_attempted.1 stC "ABC" [rowA] rowA (by decide) (by decide)
     (by decide) (by decide) rfl,
   C5_amended_insert_still_attempted.2 stCF [rowA] (by decide) (by decide)
     (by decide) (by decide) (by decide)⟩

/-- C5 counterexample: in store `stC` creating `stock_abc` fails
(`create_table` returns `False`), yet `insert_data` still issues its INSERT;
in store `stCF` creating `common_stock_data` fails, yet `bulk_insert_common`
also still issues its INSERT (the failed creation left the name registered
in the shared metadata, so statement preparation succeeds) — refuting the
claim that no insert is attempted after a failed creation. -/
theorem C5_counterexample :
    (create_table stC ("stock_" ++ lowerStr "ABC")).1 = false
    ∧ Event.insertIssued ("stock_" ++ lowerStr "ABC") 1 ∈
        (insert_data stC "ABC" [rowA]).2.2
    ∧ (create_table stCF "common_stock_data").1 = false
    ∧ Event.insertIssued "common_stock_data" 1 ∈ (bulk_insert_common stCF [rowA]).2 :=
  ⟨by decide, by decide, by decide, by decide⟩

/-- C7: the single-row upsert given a multi-row per-symbol group behaves
exactly as if given only the group's first row (`iloc[0]`): result flag,
final state and effect trace are all identical, so every later row of the
group is ignored without error. -/
theorem C7_first_row_only (st : MState) (symbol : String) (r : EncRow)
    (rest : List EncRow) :
    insert_data st symbol (r :: rest) = insert_data st symbol [r] := rfl

/-- C8 amended: for a batch with no pattern-positive rows,
`bulk_insert_common` issues no INSERT, emits no info log and does nothing
beyond its initial unconditional `create_table` call (whose existence check,
possible creation, and possible creation-failure log line do occur before the
empty-batch test). -/
theorem C8_amended_empty_batch (st : MState) (df : List EncRow)
    (h : (df.filter hasAnyPattern).isEmpty = true) :
    bulk_insert_common st df = (create_table st "common_stock_data").2
    ∧ (∀ tn n, Event.insertIssued tn n ∉ (bulk_insert_common st df).2)
    ∧ (∀ tn, Event.logInfo tn ∉ (bulk_insert_common st df).2) := by
  have heq := bulk_insert_empty st df h
  refine ⟨heq, ?_, ?_⟩
  · intro tn n hmem
    rw [heq] at hmem
    rcases create_table_events st "common_stock_data" _ hmem with h1 | h1 | h1 | h1 <;>
      simp at h1
  · intro tn hmem
    rw [heq] at hmem
    rcases create_table_events st "common_stock_data" _ hmem with h1 | h1 | h1 | h1 <;>
      simp at h1

/-- Witness for the amended C8 at the empty store and all-zero-flag batch. -/
theorem C8_amended_witness :
    bulk_insert_common stZ [rowZ] = (create_table stZ "common_stock_data").2
    ∧ (∀ tn n, Event.insertIssued tn n ∉ (bulk_insert_common stZ [rowZ]).2)
    ∧ (∀ tn, Event.logInfo tn ∉ (bulk_insert_common stZ [rowZ]).2) :=
  C8_amended_empty_batch stZ [rowZ] (by decide)

/-- C8 counterexample: a batch with zero pattern rows still triggers a
table-existence check on `common_stock_data` (store `stZ`), and when creation
fails (store `stCF`) it still emits an error log line — refuting the claim of
no table access and no log output. -/
theorem C8_counterexample :
    (([rowZ] : List EncRow).filter hasAnyPattern).isEmpty = true
    ∧ Event.existenceChecked "common_stock_data" ∈ (bulk_insert_common stZ [rowZ]).2
    ∧ Event.logError (.createTable "common_stock_data") ∈
        (bulk_insert_common stCF [rowZ]).2 :=
  ⟨by decide, by decide, by decide⟩

/-! ## Claims about the per-day pipeline and the range driver -/

/-- C9: for every date whose weekday is Saturday or Sunday,
`process_single_date` returns immediately: the state is untouched and the
trace is empty — no fetch is issued and no write of any kind is attempted
for that date, in particular when `process_date_range` iterates across a
weekend. -/
theorem C9_weekend_skip (env : WorldEnv) (st : MState) (d : CalDate)
    (h : is_weekend d = true) : processSingleDate env st d = (st, []) := by
  unfold processSingleDate
  rw [if_pos h]

/-- Witness for C9 at Saturday 2025-01-04. -/
theorem C9_weekend_skip_witness : processSingleDate envX stZ dSat = (stZ, []) :=
  C9_weekend_skip envX stZ dSat (by decide)

theorem processSingleDate_stage_failure (env : WorldEnv) (st : MState) (d : CalDate)
    (df : List RawBar) (hw : is_weekend d = false) (hf : env.fetch d = .ok df)
    (hflags : (env.parseFails d || env.cleanFails d || env.encodeFails d) = true) :
    processSingleDate env st d = (st, [.fetchIssued d, .logError (.processDate d)]) := by
  simp [processSingleDate, hw, hf, hflags]

theorem processSingleDate_fetch_exn (env : WorldEnv) (st : MState) (d : CalDate)
    (hw : is_weekend d = false) (hfetch : env.fetch d = .exn) :
    processSingleDate env st d = (st, [.fetchIssued d]) := by
  simp [processSingleDate, hw, hfetch]

theorem fetch_in_processSingleDate (env : WorldEnv) (st : MState) (d : CalDate)
    (hw : is_weekend d = false) :
    Event.fetchIssued d ∈ (processSingleDate env st d).2 := by
  cases hf : env.fetch d with
  | httpFail => simp [processSingleDate, hw, hf]
  | exn => simp [processSingleDate, hw, hf]
  | ok df =>
    by_cases hp : (env.parseFails d || env.cleanFails d || env.encodeFails d) = true
    · simp [processSingleDate, hw, hf, hp]
    · rw [Bool.not_eq_true] at hp
      simp [processSingleDate, hw, hf, hp]

theorem fetch_in_runDays (env : WorldEnv) (st : MState) (ds : List CalDate)
    (d : CalDate) (hmem : d ∈ ds) (hw : is_weekend d = false) :
    Event.fetchIssued d ∈ (runDays env st ds).2 := by
  induction ds generalizing st with
  | nil => cases hmem
  | cons a rest ih =>
    show Event.fetchIssued d ∈
      (processSingleDate env st a).2 ++ (runDays env (processSingleDate env st a).1 rest).2
    rcases List.mem_cons.mp hmem with rfl | hmem'
    · exact List.mem_append.mpr (Or.inl (fetch_in_processSingleDate env st d hw))
    · exact List.mem_append.mpr (Or.inr (ih _ hmem'))

/-- C6 amended: an exception in the parse/clean/encode stages of a day's
try-block is caught inside `process_single_date` and logged with that date,
leaving the state untouched; an exception during the fetch is caught inside
`download_csv` and treated as missing data — nothing is logged for it; in
either case nothing propagates, and `process_date_range` still reaches every
(non-weekend) day of the range regardless of the environment and of earlier
days' failures. -/
theorem C6_amended_error_isolation :
    (∀ (env : WorldEnv) (st : MState) (d : CalDate) (df : List RawBar),
        is_weekend d = false → env.fetch d = .ok df →
        (env.parseFails d || env.cleanFails d || env.encodeFails d) = true →
        processSingleDate env st d = (st, [.fetchIssued d, .logError (.processDate d)]))
    ∧ (∀ (env : WorldEnv) (st : MState) (d : CalDate),
        is_weekend d = false → env.fetch d = .exn →
        processSingleDate env st d = (st, [.fetchIssued d]))
    ∧ (∀ (env : WorldEnv) (st : MState) (startD endD d : CalDate),
        d ∈ rangeDays startD endD → is_weekend d = false →
        Event.fetchIssued d ∈ (processDateRange env st startD endD).2) :=
  ⟨processSingleDate_stage_failure, processSingleDate_fetch_exn,
   fun env st _ _ d hmem hw => fetch_in_runDays env st _ d hmem hw⟩

/-- Witness for the amended C6: a parse failure on Monday 2025-01-06 is
logged with the date, a fetch exception is silent, and the one-day range
still issues its fetch. -/
theorem C6_witness :
    processSingleDate envP stZ dMon = (stZ, [.fetchIssued dMon, .logError (.processDate dMon)])
    ∧ processSingleDate envX stZ dMon = (stZ, [Event.fetchIssued dMon])
    ∧ Event.fetchIssued dMon ∈ (processDateRange envX stZ dMon dMon).2 :=
  ⟨C6_amended_error_isolation.1 envP stZ dMon [] (by decide) rfl (by decide),
   C6_amended_error_isolation.2.1 envX stZ dMon (by decide) rfl,
   C6_amended_error_isolation.2.2 envX stZ dMon dMon dMon (by decide) (by decide)⟩

/-- C6 counterexample: in world `envX` the fetch of Monday 2025-01-06 raises
(`.exn`), the exception is caught (the call returns normally with just the
fetch event) but nothing is logged for that date — refuting the claim that
any exception raised while processing a day (including fetch) is logged with
the date. -/
theorem C6_counterexample :
    envX.fetch dMon = FetchOutcome.exn
    ∧ (processSingleDate envX stZ dMon).2 = [Event.fetchIssued dMon]
    ∧ ∀ c, Event.logError c ∉ (processSingleDate envX stZ dMon).2 := by
  have h2 : (processSingleDate envX stZ dMon).2 = [Event.fetchIssued dMon] := by decide
  refine ⟨rfl, h2, ?_⟩
  intro c hmem
  rw [h2] at hmem
  simp at hmem

end CandleSage
